import Mathlib

/-!
# Verification of the flatshare-chaos conversation core

Shallow embedding of the core algorithms of the flatshare-chaos repository
(`app/conversation_analyzer.py`, `app/memory_manager.py`, `app/mood_system.py`,
`app/relationship_engine.py`, `app/personality_engine.py`) and proofs about them.

Modelling conventions:
* Python `float` values are modelled as exact rationals (`ℚ`); all float
  literals in the source (`0.5`, `0.01`, …) are exact decimals, so the
  arithmetic structure is preserved.
* Python `int` is modelled as `Int`; Python floor division `//` is `Int.fdiv`.
* Python strings are modelled as `String` / `List Char`; the string helpers
  (`lower`, `isupper`, `in`, `split`) are modelled for ASCII text, which is
  the alphabet of every keyword table in the source.
* Python dicts used as fixed lookup tables become if-chains or association
  lists; the relationship matrix dict becomes an association list with
  first-match lookup and in-place replacement, which matches dict semantics
  for the operations the source performs.
-/

namespace FlatshareChaos

/-- ASCII model of `str.lower` on one character: `A`–`Z` maps to `a`–`z`,
everything else is unchanged. -/
def lowerChar (c : Char) : Char :=
  if 65 ≤ c.toNat ∧ c.toNat ≤ 90 then Char.ofNat (c.toNat + 32) else c

/-- ASCII model of `str.lower` on a character list. -/
def lowerL (l : List Char) : List Char := l.map lowerChar

/-- `isPrefB n h` is true when `n` is a prefix of `h`. -/
def isPrefB : List Char → List Char → Bool
  | [], _ => true
  | _ :: _, [] => false
  | a :: as, b :: bs => a == b && isPrefB as bs

/-- `containsSeq needle hay` models Python's substring test `needle in hay`. -/
def containsSeq (needle : List Char) : List Char → Bool
  | [] => needle.isEmpty
  | c :: rest => isPrefB needle (c :: rest) || containsSeq needle rest

/-- Substring test with a `String` needle, models `needle in hay`. -/
def strIn (needle : String) (hay : List Char) : Bool := containsSeq needle.data hay

/-- Split a character list into the maximal runs of characters satisfying
`keep`, dropping the separators.  `acc` holds the current run, reversed. -/
def splitRuns (keep : Char → Bool) : List Char → List Char → List (List Char)
  | [], acc => if acc.isEmpty then [] else [acc.reverse]
  | c :: rest, acc =>
    if keep c then splitRuns keep rest (c :: acc)
    else if acc.isEmpty then splitRuns keep rest []
    else acc.reverse :: splitRuns keep rest []

/-- Model of Python `str.split()` (split on whitespace runs, no empty parts). -/
def splitWs (l : List Char) : List (List Char) := splitRuns (fun c => !c.isWhitespace) l []

/-- A regex `\w` word character (ASCII): letters, digits, underscore. -/
def wordChar (c : Char) : Bool := c.isAlphanum || c == '_'

/-- Model of `re.findall(r'\b\w+\b', l)`: the maximal runs of word characters. -/
def findWords (l : List Char) : List (List Char) := splitRuns wordChar l []

/-- ASCII model of Python `str.isupper`: at least one cased (alphabetic)
character and every cased character uppercase. -/
def pyIsUpper (w : List Char) : Bool :=
  w.any (fun c => c.isAlpha) && w.all (fun c => !c.isAlpha || c.isUpper)

/-- Model of Python `int(x)` on a rational: truncation toward zero. -/
def pyTrunc (q : ℚ) : Int := if q < 0 then -⌊-q⌋ else ⌊q⌋

/-! ## Data model (`app/roommates.py`)

Only the fields consulted by the operations under verification are kept;
the prompt-template fields (style, quirks, …) never influence them. -/

/-- `ConversationEntry` from `app/roommates.py`, restricted to the fields the
memory manager reads: the dataclass also carries a timestamp, context tags and
a sentiment, none of which `add_conversation` consults. -/
structure ConversationEntry where
  speaker : String
  message : String
  effectiveness_score : Option ℚ := none
deriving DecidableEq

/-- `EnhancedRoommate` from `app/roommates.py`, restricted to the fields the
mood system and speaker selection read. -/
structure EnhancedRoommate where
  name : String
  mood : Int := 50
  baseline_mood : Int := 50
deriving DecidableEq

/-- `AnalysisResult` from `app/roommates.py`. -/
structure AnalysisResult where
  topics : List String
  sentiment : ℚ
  urgency : ℚ
  question_count : Nat
  repeated_phrases : List String
  behavioral_flags : List String
deriving DecidableEq

/-! ## Mood system (`app/mood_system.py`) -/

/-- The `mood_changes` dict of `MoodSystem.update_mood` together with
`mood_changes.get(event_type, 0)`.  Python's `intensity // 2` and
`-intensity // 3` are floor divisions (`//` binds looser than unary minus),
hence `Int.fdiv`. -/
def moodDelta (event_type : String) (intensity : Int) : Int :=
  if event_type = "roast_received" then -intensity
  else if event_type = "roast_successful" then Int.fdiv intensity 2
  else if event_type = "defended" then intensity
  else if event_type = "complimented" then intensity
  else if event_type = "ignored" then Int.fdiv (-intensity) 3
  else if event_type = "praised" then intensity
  else if event_type = "criticized" then -intensity
  else if event_type = "supported" then Int.fdiv intensity 2
  else 0

/-- `MoodSystem.update_mood`: the new mood stored on the roommate,
`max(1, min(100, roommate.mood + delta))`. -/
def update_mood (mood : Int) (event_type : String) (intensity : Int) : Int :=
  max 1 (min 100 (mood + moodDelta event_type intensity))

/-- The modifier dict returned by `MoodSystem.get_mood_modifier`; fields in
the dict's insertion order. -/
structure MoodModifiers where
  aggression : ℚ
  humor : ℚ
  defensiveness : ℚ
  roast_likelihood : ℚ
  response_length : ℚ
deriving DecidableEq

/-- `MoodSystem.get_mood_modifier`: starts from all-1.0 defaults and
overwrites per mood band, mirroring the source's `if/elif` chain
(`mood < 30`, `mood < 50`, `mood > 80`, `mood > 60`, else defaults). -/
def get_mood_modifier (mood : Int) : MoodModifiers :=
  if mood < 30 then ⟨1.5, 0.7, 1.3, 1.4, 0.8⟩
  else if mood < 50 then ⟨1.2, 0.9, 1.1, 1.2, 1.0⟩
  else if mood > 80 then ⟨0.6, 1.3, 0.8, 0.7, 1.2⟩
  else if mood > 60 then ⟨0.8, 1.1, 1.0, 0.9, 1.0⟩
  else ⟨1.0, 1.0, 1.0, 1.0, 1.0⟩

/-- The per-roommate body of `MoodSystem.decay_moods`: move toward the
baseline by `decay_amount` without overshooting, then store
`int(new_mood)` (truncation toward zero). -/
def decayMoodVal (mood baseline : Int) (decay_amount : ℚ) : Int :=
  let new_mood : ℚ :=
    if (mood : ℚ) > (baseline : ℚ) then max (baseline : ℚ) ((mood : ℚ) - decay_amount)
    else if (mood : ℚ) < (baseline : ℚ) then min (baseline : ℚ) ((mood : ℚ) + decay_amount)
    else (baseline : ℚ)
  pyTrunc new_mood

/-- `MoodSystem.decay_moods`: `decay_amount = mood_decay_rate * minutes_passed`,
each roommate's mood updated in place. -/
def decay_moods (roommates : List EnhancedRoommate) (mood_decay_rate minutes_passed : ℚ) :
    List EnhancedRoommate :=
  let decay_amount := mood_decay_rate * minutes_passed
  roommates.map (fun r => { r with mood := decayMoodVal r.mood r.baseline_mood decay_amount })

/-! ## Memory manager (`app/memory_manager.py`) -/

/-- The sort key of `MemoryManager.add_conversation`:
`x.effectiveness_score or 0.0` (a missing score counts as `0.0`;
`0.0 or 0.0` is also `0.0`, so `Option.getD` is an exact model). -/
def effKey (e : ConversationEntry) : ℚ := e.effectiveness_score.getD 0

/-- Ascending order on entries by effectiveness key. -/
def effLE (a b : ConversationEntry) : Prop := effKey a ≤ effKey b

instance : DecidableRel effLE := fun a b => inferInstanceAs (Decidable (effKey a ≤ effKey b))

instance : IsTotal ConversationEntry effLE := ⟨fun a b => le_total (effKey a) (effKey b)⟩

instance : IsTrans ConversationEntry effLE := ⟨fun _ _ _ h h' => le_trans h h'⟩

/-- Python slice `l[-k:]` for a literal non-negative `k`: the last `k`
elements — except that `l[-0:]` is the whole list. -/
def pyLastSlice (k : Nat) (l : List ConversationEntry) : List ConversationEntry :=
  if k = 0 then l else l.drop (l.length - k)

/-- `MemoryManager.add_conversation` acting on the `conversation_memory` list.
Python's `list.sort` is a stable ascending sort; `List.insertionSort` is also
stable, and a stable sort's output is uniquely determined by key and input, so
the two agree.  `entries_to_keep` is a Python `int` that can be negative,
hence `Int`. -/
def add_conversation (max_memory_size : Nat) (memory : List ConversationEntry)
    (entry : ConversationEntry) : List ConversationEntry :=
  let m := memory ++ [entry]
  if m.length > max_memory_size then
    let entries_to_remove := m.length - max_memory_size
    if m.length > 10 then
      let recent_entries := pyLastSlice 10 m
      let older_entries := m.take (m.length - 10)
      let sorted_older := List.insertionSort effLE older_entries
      let entries_to_keep : Int := (older_entries.length : Int) - (entries_to_remove : Int)
      let kept_older :=
        if entries_to_keep > 0 then sorted_older.drop (sorted_older.length - entries_to_keep.toNat)
        else []
      kept_older ++ recent_entries
    else
      pyLastSlice max_memory_size m
  else m

/-- A sequence of `add_conversation` calls folded over its argument list. -/
def addAll (max_memory_size : Nat) (memory : List ConversationEntry)
    (entries : List ConversationEntry) : List ConversationEntry :=
  entries.foldl (add_conversation max_memory_size) memory

/-- The last `k` elements of a list (used to speak about "the `k` most
recently appended entries"). -/
def lastN (k : Nat) (l : List ConversationEntry) : List ConversationEntry :=
  l.drop (l.length - k)

/-! ## Relationship engine (`app/relationship_engine.py`) -/

/-- Lexicographic strict order on character lists by code point, the order
Python's string comparison (and hence `sorted`) uses. -/
def lexLt : List Char → List Char → Bool
  | [], [] => false
  | [], _ :: _ => true
  | _ :: _, [] => false
  | a :: as, b :: bs =>
    if a.toNat < b.toNat then true
    else if b.toNat < a.toNat then false
    else lexLt as bs

/-- Python `s < t` on strings. -/
def strLt (a b : String) : Bool := lexLt a.data b.data

/-- `RelationshipEngine._get_relationship_key`:
`tuple(sorted([roommate1, roommate2]))`. -/
def relKey (roommate1 roommate2 : String) : String × String :=
  if strLt roommate2 roommate1 then (roommate2, roommate1) else (roommate1, roommate2)

/-- The `relationship_matrix` dict, as an association list. -/
abbrev RelMatrix := List ((String × String) × Int)

/-- Dict read: `relationship_matrix.get(key)` (first matching key). -/
def matLookup : RelMatrix → String × String → Option Int
  | [], _ => none
  | (k, v) :: rest, key => if k = key then some v else matLookup rest key

/-- Dict write: `relationship_matrix[key] = v` (replace or append). -/
def matSet : RelMatrix → String × String → Int → RelMatrix
  | [], key, v => [(key, v)]
  | (k, w) :: rest, key, v =>
    if k = key then (key, v) :: rest else (k, w) :: matSet rest key v

/-- `RelationshipEngine.update_relationship`: no-op on a self pair, else read
the current score (default 50), add `delta`, clamp to `[0, 100]`, store. -/
def update_relationship (m : RelMatrix) (roommate1 roommate2 : String) (delta : Int) :
    RelMatrix :=
  if roommate1 = roommate2 then m
  else
    let key := relKey roommate1 roommate2
    let current_score := (matLookup m key).getD 50
    matSet m key (max 0 (min 100 (current_score + delta)))

/-- `RelationshipEngine.get_relationship_score`: 100 on a self pair, else the
stored score or the default 50. -/
def get_relationship_score (m : RelMatrix) (roommate1 roommate2 : String) : Int :=
  if roommate1 = roommate2 then 100
  else (matLookup m (relKey roommate1 roommate2)).getD 50

/-- The score-to-modifier conversion inside
`RelationshipEngine.get_roast_intensity_modifier` (the `if/elif` chain on
`relationship_score`). -/
def intensityOfScore (s : Int) : ℚ :=
  if s ≥ 80 then 0.5 + ((s : ℚ) - 80) * 0.01
  else if s ≥ 60 then 0.7 + ((s : ℚ) - 60) * 0.01
  else if s ≥ 40 then 0.9 + ((s : ℚ) - 40) * 0.01
  else if s ≥ 20 then 1.1 + (40 - (s : ℚ)) * 0.01
  else 1.3 + (20 - (s : ℚ)) * 0.01

/-- `RelationshipEngine.get_roast_intensity_modifier`. -/
def get_roast_intensity_modifier (m : RelMatrix) (roaster target : String) : ℚ :=
  if roaster = target then 1.0
  else intensityOfScore (get_relationship_score m roaster target)

/-- The `base_changes` dict of `RelationshipEngine.simulate_interaction_outcome`
together with `base_changes.get(interaction_type, 0)`. -/
def interactionDelta (interaction_type : String) (success : Bool) : Int :=
  if interaction_type = "roast" then if success then -3 else -1
  else if interaction_type = "defend" then if success then 5 else 2
  else if interaction_type = "compliment" then if success then 4 else 1
  else if interaction_type = "joke" then if success then 2 else -1
  else if interaction_type = "support" then if success then 3 else 1
  else if interaction_type = "conflict" then if success then -5 else -2
  else 0

/-- `RelationshipEngine.simulate_interaction_outcome`: returns the delta and
the (possibly updated) matrix; the matrix is only touched when the delta is
non-zero and the names differ. -/
def simulate_interaction_outcome (m : RelMatrix) (roommate1 roommate2 : String)
    (interaction_type : String) (success : Bool) : Int × RelMatrix :=
  if roommate1 = roommate2 then (0, m)
  else
    let delta := interactionDelta interaction_type success
    if delta ≠ 0 then (delta, update_relationship m roommate1 roommate2 delta)
    else (delta, m)

/-- The relationship matrices reachable from the engine's initial empty dict
by `update_relationship` and `simulate_interaction_outcome` calls. -/
inductive RelReach : RelMatrix → Prop
  | init : RelReach []
  | upd (m : RelMatrix) (a b : String) (delta : Int) :
      RelReach m → RelReach (update_relationship m a b delta)
  | sim (m : RelMatrix) (a b t : String) (success : Bool) :
      RelReach m → RelReach (simulate_interaction_outcome m a b t success).2

/-! ## Conversation analyzer (`app/conversation_analyzer.py`) -/

/-- `ConversationAnalyzer._load_topic_keywords`. -/
def topic_keywords : List (String × List String) :=
  [("career", ["job", "work", "career", "boss", "office", "salary", "promotion", "interview", "resume"]),
   ("relationships", ["girlfriend", "boyfriend", "dating", "love", "crush", "relationship", "marriage", "single"]),
   ("food", ["eat", "food", "cook", "recipe", "restaurant", "hungry", "dinner", "lunch", "breakfast"]),
   ("technology", ["computer", "phone", "app", "software", "coding", "programming", "tech", "internet"]),
   ("health", ["gym", "exercise", "diet", "sick", "doctor", "medicine", "fitness", "workout"]),
   ("money", ["money", "expensive", "cheap", "budget", "broke", "rich", "cost", "price", "financial"]),
   ("education", ["school", "study", "exam", "college", "university", "degree", "learning", "homework"]),
   ("entertainment", ["movie", "music", "game", "tv", "show", "book", "party", "fun", "weekend"]),
   ("family", ["family", "parents", "mom", "dad", "sister", "brother", "relatives", "home"]),
   ("travel", ["travel", "vacation", "trip", "flight", "hotel", "visit", "explore", "journey"])]

/-- The `positive` list of `ConversationAnalyzer._load_sentiment_indicators`. -/
def positiveWords : List String :=
  ["good", "great", "awesome", "amazing", "love", "happy", "excited", "wonderful", "fantastic", "excellent"]

/-- The `negative` list of `ConversationAnalyzer._load_sentiment_indicators`. -/
def negativeWords : List String :=
  ["bad", "terrible", "awful", "hate", "sad", "angry", "frustrated", "disappointed", "worried", "stressed"]

/-- The `questions` list of `ConversationAnalyzer._load_sentiment_indicators`. -/
def questionWords : List String :=
  ["?", "what", "how", "why", "when", "where", "who", "which", "should i", "can you"]

/-- `ConversationAnalyzer._load_behavioral_patterns`. -/
def behavioral_patterns : List (String × List String) :=
  [("indecisive", ["i don't know", "not sure", "maybe", "what should i", "help me decide"]),
   ("complainer", ["always", "never", "everything", "nothing works", "so annoying", "hate when"]),
   ("perfectionist", ["perfect", "exactly", "precisely", "must be", "has to be", "should be"]),
   ("procrastinator", ["later", "tomorrow", "eventually", "when i have time", "putting off"]),
   ("overachiever", ["best", "top", "first", "win", "achieve", "goal", "success", "excel"]),
   ("social", ["friends", "people", "everyone", "party", "hang out", "meet up", "social"]),
   ("introvert", ["alone", "quiet", "by myself", "don't like crowds", "prefer", "stay in"])]

/-- The `urgency_indicators` list of `ConversationAnalyzer._detect_urgency`. -/
def urgency_indicators : List String :=
  ["urgent", "asap", "immediately", "now", "quick", "fast", "hurry", "emergency",
   "!!!", "help!", "need", "must", "have to", "should", "important"]

/-- `ConversationAnalyzer._detect_topics`: a topic is reported once if any of
its keywords is a substring of the (lower-cased) message; table order. -/
def _detect_topics (message : List Char) : List String :=
  topic_keywords.filterMap fun tk =>
    if tk.2.any (fun keyword => strIn keyword message) then some tk.1 else none

/-- `ConversationAnalyzer._analyze_sentiment`: keyword hits over word count,
net sentiment amplified by 10 and clamped to `[-1, 1]`; word count 0 yields
`0.0`. -/
def _analyze_sentiment (message : List Char) : ℚ :=
  let positive_count := (positiveWords.filter (fun w => strIn w message)).length
  let negative_count := (negativeWords.filter (fun w => strIn w message)).length
  let word_count := (splitWs message).length
  if word_count = 0 then 0
  else
    let positive_score : ℚ := (positive_count : ℚ) / (word_count : ℚ)
    let negative_score : ℚ := (negative_count : ℚ) / (word_count : ℚ)
    max (-1) (min 1 ((positive_score - negative_score) * 10))

/-- The integer count accumulated by `ConversationAnalyzer._detect_urgency`:
present urgency indicators, `+2` for `'!!!' in message or message.count('!') > 2`,
`+1` per all-caps word of length `> 2` in the message it receives. -/
def urgencyCount (message : List Char) : Nat :=
  let base := (urgency_indicators.filter (fun w => strIn w message)).length
  let base := if strIn "!!!" message || message.count '!' > 2 then base + 2 else base
  base + ((splitWs message).filter (fun w => pyIsUpper w && w.length > 2)).length

/-- `ConversationAnalyzer._detect_urgency`: `min(1.0, urgency_count / 5.0)`. -/
def _detect_urgency (message : List Char) : ℚ :=
  min 1 ((urgencyCount message : ℚ) / 5)

/-- Order-preserving deduplication (`Counter.items()` lists each distinct
element at its first occurrence). -/
def dedupFirst : List (List Char) → List (List Char) → List (List Char)
  | [], _ => []
  | x :: xs, seen =>
    if seen.any (fun y => y == x) then dedupFirst xs seen
    else x :: dedupFirst xs (x :: seen)

/-- `ConversationAnalyzer._detect_repeated_phrases`: overlapping 2- and 3-word
windows, phrases occurring more than once, first-occurrence order, first 5. -/
def _detect_repeated_phrases (message : List Char) : List String :=
  let words := findWords message
  let two := (List.range (words.length - 1)).map fun i =>
    words.getD i [] ++ ' ' :: words.getD (i + 1) []
  let three := (List.range (words.length - 2)).map fun i =>
    words.getD i [] ++ ' ' :: words.getD (i + 1) [] ++ ' ' :: words.getD (i + 2) []
  let phrases := two ++ three
  (((dedupFirst phrases []).filter (fun p => phrases.count p > 1)).take 5).map
    fun p => String.mk p

/-- `ConversationAnalyzer._detect_behavioral_flags`: same presence technique
as topics, over the behaviour table. -/
def _detect_behavioral_flags (message : List Char) : List String :=
  behavioral_patterns.filterMap fun bp =>
    if bp.2.any (fun indicator => strIn indicator message) then some bp.1 else none

/-- `ConversationAnalyzer.analyze_message`: lower-cases the message once, then
assembles the `AnalysisResult`; `question_count` counts `'?'` in the original
message plus the question words present in the lower-cased one. -/
def analyze_message (message : String) : AnalysisResult :=
  let message_lower := lowerL message.data
  { topics := _detect_topics message_lower
    sentiment := _analyze_sentiment message_lower
    urgency := _detect_urgency message_lower
    question_count := message.data.count '?' +
      (questionWords.filter (fun w => strIn w message_lower)).length
    repeated_phrases := _detect_repeated_phrases message_lower
    behavioral_flags := _detect_behavioral_flags message_lower }

/-- `analyze_message` called with a dynamically-typed argument: on `None`
(modelled as `none`) the very first statement `message.lower()` raises
`AttributeError`, because `None` has no `lower` method. -/
def analyze_message_dyn : Option String → Except String AnalysisResult
  | none => Except.error "AttributeError"
  | some s => Except.ok (analyze_message s)

/-- The all-neutral analysis result. -/
def neutralResult : AnalysisResult :=
  { topics := [], sentiment := 0, urgency := 0, question_count := 0,
    repeated_phrases := [], behavioral_flags := [] }

/-! ## Speaker selection (`app/personality_engine.py`) -/

/-- The `topic_preferences` dict of
`PersonalityEngine._choose_primary_responder`. -/
def topic_preferences : List (String × List String) :=
  [("technology", ["CodeMaster"]),
   ("career", ["CodeMaster", "UncleJi"]),
   ("food", ["ChefCritic", "UncleJi"]),
   ("entertainment", ["BeatDrop", "SavageBurn"]),
   ("money", ["PennyPincher", "UncleJi"]),
   ("relationships", ["UncleJi", "QuietStorm"]),
   ("health", ["ChefCritic", "BeatDrop"])]

/-- Association-list lookup for the fixed tables. -/
def tableLookup (table : List (String × List String)) (key : String) : Option (List String) :=
  match table with
  | [] => none
  | (k, v) :: rest => if k = key then some v else tableLookup rest key

/-- The deterministic part of `PersonalityEngine._choose_primary_responder`:
the candidate list the final `random.choice` draws from.  Topic-interested
roommates first; if none, the sentiment/question/urgency heuristics; if still
none, every roommate. -/
def chooseCandidates (analysis : AnalysisResult) (roommates : List EnhancedRoommate) :
    List EnhancedRoommate :=
  let interested := analysis.topics.foldl
    (fun acc topic =>
      match tableLookup topic_preferences topic with
      | some names => acc ++ names.filterMap (fun n => roommates.find? (fun r => r.name == n))
      | none => acc)
    []
  let interested :=
    if interested.isEmpty then
      if analysis.sentiment < -0.5 then
        roommates.filter (fun r => ["SavageBurn", "DeepThought"].contains r.name)
      else if analysis.question_count > 0 then
        roommates.filter (fun r => ["UncleJi", "CodeMaster", "DeepThought"].contains r.name)
      else if analysis.urgency > 0.5 then
        roommates.filter (fun r => ["SavageBurn", "ChaosKing"].contains r.name)
      else []
    else interested
  if interested.isEmpty then roommates else interested

/-- The nine personas built by `app/personality_profiles.py` (names as in the
source; the other profile fields never reach the speaker selection). -/
def roster9 : List EnhancedRoommate :=
  [{ name := "CodeMaster" }, { name := "SavageBurn" }, { name := "UncleJi" },
   { name := "ChefCritic" }, { name := "BeatDrop" }, { name := "ChaosKing" },
   { name := "QuietStorm" }, { name := "PennyPincher" }, { name := "DeepThought" }]

/-- "The message explicitly names the persona": case-insensitive substring
match of the persona's name in the message. -/
def namedIn (r : EnhancedRoommate) (message : String) : Bool :=
  strIn (String.mk (lowerL r.name.data)) (lowerL message.data)

/-! ## Theorems -/

/-- **C6, counterexample.**  The claim places mood 60 in the band
`aggression 0.8, roastLikelihood 0.9, humor 1.1`, but the source tests
`mood > 60`, so mood 60 falls through to the all-1.0 defaults. -/
theorem mood_modifier_counterexample :
    (get_mood_modifier 60).aggression = 1 ∧ ¬ (get_mood_modifier 60).aggression = 0.8 := by
  constructor
  · norm_num [get_mood_modifier]
  · norm_num [get_mood_modifier]

/-- **C6, amended.**  `get_mood_modifier` returns exactly the claimed band
values except that the all-default band is mood 50–60 inclusive and the
`aggression 0.8` band is mood 61–80 (the source tests `mood > 60`, so mood 60
gets the defaults). -/
theorem mood_modifier_bands (mood : Int) :
    (mood < 30 → get_mood_modifier mood = ⟨1.5, 0.7, 1.3, 1.4, 0.8⟩)
    ∧ (30 ≤ mood → mood < 50 → get_mood_modifier mood = ⟨1.2, 0.9, 1.1, 1.2, 1.0⟩)
    ∧ (50 ≤ mood → mood ≤ 60 → get_mood_modifier mood = ⟨1.0, 1.0, 1.0, 1.0, 1.0⟩)
    ∧ (60 < mood → mood ≤ 80 → get_mood_modifier mood = ⟨0.8, 1.1, 1.0, 0.9, 1.0⟩)
    ∧ (80 < mood → get_mood_modifier mood = ⟨0.6, 1.3, 0.8, 0.7, 1.2⟩) := by
  unfold get_mood_modifier
  refine ⟨fun h1 => ?_, fun h1 h2 => ?_, fun h1 h2 => ?_, fun h1 h2 => ?_, fun h1 => ?_⟩
  · rw [if_pos h1]
  · rw [if_neg (by omega), if_pos h2]
  · rw [if_neg (by omega), if_neg (by omega), if_neg (by omega), if_neg (by omega)]
  · rw [if_neg (by omega), if_neg (by omega), if_neg (by omega), if_pos h1]
  · rw [if_neg (by omega), if_neg (by omega), if_pos h1]

/-- **C6, witness** at the spec's example mood 25. -/
theorem mood_modifier_bands_witness :
    get_mood_modifier 25 = ⟨1.5, 0.7, 1.3, 1.4, 0.8⟩ :=
  (mood_modifier_bands 25).1 (by decide)

/-- **C7.**  `update_mood` applies the fixed per-event delta — with Python's
floor divisions `intensity // 2` and `-intensity // 3` rendered as `Int.fdiv` —
and clamps the result to `[1, 100]`; an unknown event type leaves an in-range
mood unchanged. -/
theorem update_mood_spec (mood intensity : Int) (event_type : String)
    (hm1 : 1 ≤ mood) (hm2 : mood ≤ 100) (hi1 : 1 ≤ intensity) (hi2 : intensity ≤ 10) :
    (1 ≤ update_mood mood event_type intensity ∧ update_mood mood event_type intensity ≤ 100)
    ∧ update_mood mood "roast_received" intensity = max 1 (min 100 (mood - intensity))
    ∧ update_mood mood "roast_successful" intensity = max 1 (min 100 (mood + Int.fdiv intensity 2))
    ∧ update_mood mood "defended" intensity = max 1 (min 100 (mood + intensity))
    ∧ update_mood mood "complimented" intensity = max 1 (min 100 (mood + intensity))
    ∧ update_mood mood "praised" intensity = max 1 (min 100 (mood + intensity))
    ∧ update_mood mood "ignored" intensity = max 1 (min 100 (mood + Int.fdiv (-intensity) 3))
    ∧ update_mood mood "criticized" intensity = max 1 (min 100 (mood - intensity))
    ∧ update_mood mood "supported" intensity = max 1 (min 100 (mood + Int.fdiv intensity 2))
    ∧ (event_type ∉ (["roast_received", "roast_successful", "defended", "complimented",
        "ignored", "praised", "criticized", "supported"] : List String) →
        update_mood mood event_type intensity = mood) := by
  refine ⟨⟨le_max_left _ _, max_le (by omega) (min_le_left _ _)⟩,
    ?_, ?_, ?_, ?_, ?_, ?_, ?_, ?_, fun hu => ?_⟩
  · simp [update_mood, moodDelta]; omega
  · simp [update_mood, moodDelta]
  · simp [update_mood, moodDelta]
  · simp [update_mood, moodDelta]
  · simp [update_mood, moodDelta]
  · simp [update_mood, moodDelta]
  · simp [update_mood, moodDelta]; omega
  · simp [update_mood, moodDelta]
  · simp only [List.mem_cons, List.not_mem_nil, or_false] at hu
    push_neg at hu
    obtain ⟨h1, h2, h3, h4, h5, h6, h7, h8⟩ := hu
    simp only [update_mood, moodDelta, if_neg h1, if_neg h2, if_neg h3, if_neg h4,
      if_neg h5, if_neg h6, if_neg h7, if_neg h8]
    omega

/-- **C7, witness** at mood 50, intensity 10, unknown event `"xx"`. -/
theorem update_mood_spec_witness :
    (1 ≤ update_mood 50 "xx" 10 ∧ update_mood 50 "xx" 10 ≤ 100)
    ∧ update_mood 50 "roast_received" 10 = max 1 (min 100 (50 - 10))
    ∧ update_mood 50 "roast_successful" 10 = max 1 (min 100 (50 + Int.fdiv 10 2))
    ∧ update_mood 50 "defended" 10 = max 1 (min 100 (50 + 10))
    ∧ update_mood 50 "complimented" 10 = max 1 (min 100 (50 + 10))
    ∧ update_mood 50 "praised" 10 = max 1 (min 100 (50 + 10))
    ∧ update_mood 50 "ignored" 10 = max 1 (min 100 (50 + Int.fdiv (-10) 3))
    ∧ update_mood 50 "criticized" 10 = max 1 (min 100 (50 - 10))
    ∧ update_mood 50 "supported" 10 = max 1 (min 100 (50 + Int.fdiv 10 2))
    ∧ ("xx" ∉ (["roast_received", "roast_successful", "defended", "complimented",
        "ignored", "praised", "criticized", "supported"] : List String) →
        update_mood 50 "xx" 10 = 50) :=
  update_mood_spec 50 10 "xx" (by decide) (by decide) (by decide) (by decide)

/-- **C10.**  `simulate_interaction_outcome` with an interaction type outside
the fixed table, or with equal names, returns delta 0 and leaves the matrix
untouched. -/
theorem simulate_unknown_noop (m : RelMatrix) (a b interaction_type : String) (success : Bool)
    (h : interaction_type ∉ (["roast", "defend", "compliment", "joke", "support", "conflict"] :
        List String) ∨ a = b) :
    simulate_interaction_outcome m a b interaction_type success = (0, m) := by
  unfold simulate_interaction_outcome
  by_cases hab : a = b
  · rw [if_pos hab]
  · rcases h with h | h
    · simp only [List.mem_cons, List.not_mem_nil, or_false] at h
      push_neg at h
      obtain ⟨h1, h2, h3, h4, h5, h6⟩ := h
      rw [if_neg hab]
      simp only [interactionDelta, if_neg h1, if_neg h2, if_neg h3, if_neg h4, if_neg h5,
        if_neg h6, ne_eq, not_true_eq_false, if_false]
    · exact absurd h hab

/-- **C10, witness**: the unknown type `"dance"` on distinct names. -/
theorem simulate_unknown_noop_witness :
    simulate_interaction_outcome [] "Amy" "Bob" "dance" true = (0, []) :=
  simulate_unknown_noop [] "Amy" "Bob" "dance" true (Or.inl (by decide))

/-- Core of C9: with a fractional decay amount, truncation freezes a
below-baseline mood and moves an above-baseline mood down by exactly one. -/
theorem decayMoodVal_fractional (mood baseline : Int) (a : ℚ) (h0 : 0 < a) (h1 : a < 1)
    (hm1 : 1 ≤ mood) (hb1 : 1 ≤ baseline) :
    (mood < baseline → decayMoodVal mood baseline a = mood)
    ∧ (baseline < mood → decayMoodVal mood baseline a = mood - 1 ∧ baseline ≤ mood - 1) := by
  constructor
  · intro hlt
    have hq : (mood : ℚ) < (baseline : ℚ) := by exact_mod_cast hlt
    have hm1q : (1 : ℚ) ≤ (mood : ℚ) := by exact_mod_cast hm1
    have hstep : (mood : ℚ) + 1 ≤ (baseline : ℚ) := by exact_mod_cast hlt
    simp only [decayMoodVal]
    rw [if_neg (by linarith : ¬ (mood : ℚ) > (baseline : ℚ)), if_pos hq,
      min_eq_right (by linarith)]
    unfold pyTrunc
    rw [if_neg (by linarith)]
    rw [Int.floor_eq_iff]
    constructor
    · linarith
    · linarith
  · intro hlt
    have hq : (baseline : ℚ) < (mood : ℚ) := by exact_mod_cast hlt
    have hb1q : (1 : ℚ) ≤ (baseline : ℚ) := by exact_mod_cast hb1
    have hstep : (baseline : ℚ) + 1 ≤ (mood : ℚ) := by exact_mod_cast hlt
    have hres : decayMoodVal mood baseline a = mood - 1 := by
      simp only [decayMoodVal]
      rw [if_pos (hq : (baseline : ℚ) < (mood : ℚ)), max_eq_right (by linarith)]
      unfold pyTrunc
      rw [if_neg (by linarith)]
      rw [Int.floor_eq_iff]
      constructor
      · push_cast; linarith
      · push_cast; linarith
    exact ⟨hres, by omega⟩

/-- **C9.**  `decay_moods` stores `int(new_mood)`; with a decay amount
`mood_decay_rate * minutes_passed` strictly between 0 and 1, a roommate whose
mood is strictly below its baseline keeps its mood unchanged, while a roommate
whose mood is strictly above its baseline loses exactly 1, never dropping
below the baseline. -/
theorem decay_fractional_spec (mood_decay_rate minutes_passed : ℚ)
    (h0 : 0 < mood_decay_rate * minutes_passed) (h1 : mood_decay_rate * minutes_passed < 1)
    (roommates : List EnhancedRoommate) (i : Nat) (hi : i < roommates.length)
    (hi2 : i < (decay_moods roommates mood_decay_rate minutes_passed).length)
    (hm1 : 1 ≤ (roommates.get ⟨i, hi⟩).mood)
    (hb1 : 1 ≤ (roommates.get ⟨i, hi⟩).baseline_mood) :
    ((roommates.get ⟨i, hi⟩).mood < (roommates.get ⟨i, hi⟩).baseline_mood →
      ((decay_moods roommates mood_decay_rate minutes_passed).get ⟨i, hi2⟩).mood
        = (roommates.get ⟨i, hi⟩).mood)
    ∧ ((roommates.get ⟨i, hi⟩).baseline_mood < (roommates.get ⟨i, hi⟩).mood →
      ((decay_moods roommates mood_decay_rate minutes_passed).get ⟨i, hi2⟩).mood
        = (roommates.get ⟨i, hi⟩).mood - 1
      ∧ (roommates.get ⟨i, hi⟩).baseline_mood ≤ (roommates.get ⟨i, hi⟩).mood - 1) := by
  have hmap : (decay_moods roommates mood_decay_rate minutes_passed).get ⟨i, hi2⟩
      = { roommates.get ⟨i, hi⟩ with
          mood := decayMoodVal (roommates.get ⟨i, hi⟩).mood
            (roommates.get ⟨i, hi⟩).baseline_mood (mood_decay_rate * minutes_passed) } := by
    simp [decay_moods, List.get_eq_getElem, List.getElem_map]
  rw [hmap]
  exact decayMoodVal_fractional (roommates.get ⟨i, hi⟩).mood
    (roommates.get ⟨i, hi⟩).baseline_mood (mood_decay_rate * minutes_passed) h0 h1 hm1 hb1

/-- **C9, witness**: one roommate at mood 70 over baseline 50, decay amount
`0.1 * 5 = 0.5`. -/
theorem decay_fractional_spec_witness :
    ((([⟨"Amy", 70, 50⟩] : List EnhancedRoommate).get ⟨0, by decide⟩).mood
        < (([⟨"Amy", 70, 50⟩] : List EnhancedRoommate).get ⟨0, by decide⟩).baseline_mood →
      ((decay_moods [⟨"Amy", 70, 50⟩] (1/10) 5).get ⟨0, by simp [decay_moods]⟩).mood
        = (([⟨"Amy", 70, 50⟩] : List EnhancedRoommate).get ⟨0, by decide⟩).mood)
    ∧ ((([⟨"Amy", 70, 50⟩] : List EnhancedRoommate).get ⟨0, by decide⟩).baseline_mood
        < (([⟨"Amy", 70, 50⟩] : List EnhancedRoommate).get ⟨0, by decide⟩).mood →
      ((decay_moods [⟨"Amy", 70, 50⟩] (1/10) 5).get ⟨0, by simp [decay_moods]⟩).mood
        = (([⟨"Amy", 70, 50⟩] : List EnhancedRoommate).get ⟨0, by decide⟩).mood - 1
      ∧ (([⟨"Amy", 70, 50⟩] : List EnhancedRoommate).get ⟨0, by decide⟩).baseline_mood
        ≤ (([⟨"Amy", 70, 50⟩] : List EnhancedRoommate).get ⟨0, by decide⟩).mood - 1) :=
  decay_fractional_spec (1/10) 5 (by norm_num) (by norm_num) [⟨"Amy", 70, 50⟩] 0
    (by decide) (by simp [decay_moods]) (by decide) (by decide)

/-! ### Helper lemmas for the relationship engine -/

/-- `lexLt` is asymmetric. -/
theorem lexLt_asymm (x : List Char) : ∀ (y : List Char), lexLt x y = true → lexLt y x = false := by
  induction x with
  | nil =>
    intro y h
    cases y with
    | nil => simp [lexLt]
    | cons b bs => simp [lexLt]
  | cons a as ih =>
    intro y h
    cases y with
    | nil => simp [lexLt] at h
    | cons b bs =>
      simp only [lexLt] at h ⊢
      by_cases h1 : a.toNat < b.toNat
      · rw [if_neg (by omega), if_pos h1]
      · rw [if_neg h1] at h
        by_cases h2 : b.toNat < a.toNat
        · rw [if_pos h2] at h; exact absurd h (by simp)
        · rw [if_neg h2] at h
          rw [if_neg h2, if_neg h1]
          exact ih bs h

/-- `lexLt` is connected: two lists neither of which precedes the other are
equal. -/
theorem lexLt_conn (x : List Char) : ∀ (y : List Char),
    lexLt x y = false → lexLt y x = false → x = y := by
  induction x with
  | nil =>
    intro y hxy _
    cases y with
    | nil => rfl
    | cons b bs => simp [lexLt] at hxy
  | cons a as ih =>
    intro y hxy hyx
    cases y with
    | nil => simp [lexLt] at hyx
    | cons b bs =>
      simp only [lexLt] at hxy hyx
      by_cases h1 : a.toNat < b.toNat
      · rw [if_pos h1] at hxy; exact absurd hxy (by simp)
      · by_cases h2 : b.toNat < a.toNat
        · rw [if_pos h2] at hyx; exact absurd hyx (by simp)
        · rw [if_neg h1, if_neg h2] at hxy
          have hab : a = b := Char.ext (UInt32.ext (by omega : a.toNat = b.toNat))
          rw [if_neg h2, if_neg h1] at hyx
          rw [hab, ih bs hxy hyx]

/-- The canonical relationship key does not depend on argument order. -/
theorem relKey_comm (a b : String) : relKey a b = relKey b a := by
  unfold relKey strLt
  by_cases h1 : lexLt b.data a.data = true
  · rw [if_pos h1, if_neg (by simp [lexLt_asymm b.data a.data h1])]
  · by_cases h2 : lexLt a.data b.data = true
    · rw [if_neg (by simp [h1]), if_pos h2]
    · have hd : a.data = b.data :=
        lexLt_conn a.data b.data (by simpa using h2) (by simpa using h1)
      rw [String.ext hd]

/-- A successful dict lookup returns a stored pair. -/
theorem matLookup_mem : ∀ (m : RelMatrix) (k : String × String) (v : Int),
    matLookup m k = some v → (k, v) ∈ m := by
  intro m
  induction m with
  | nil => intro k v h; simp [matLookup] at h
  | cons kv rest ih =>
    intro k v h
    rw [matLookup] at h
    split_ifs at h with hk
    · obtain ⟨rfl, rfl⟩ : kv.1 = k ∧ kv.2 = v := by
        cases h; exact ⟨hk, rfl⟩
      exact List.mem_cons_self _ _
    · exact List.mem_cons_of_mem _ (ih k v h)

/-- Dict assignment only stores the assigned pair or pre-existing pairs. -/
theorem matSet_mem : ∀ (m : RelMatrix) (k : String × String) (v : Int) (kv : (String × String) × Int),
    kv ∈ matSet m k v → kv ∈ m ∨ kv = (k, v) := by
  intro m
  induction m with
  | nil =>
    intro k v kv h
    simp [matSet] at h
    exact Or.inr h
  | cons kw rest ih =>
    intro k v kv h
    rw [matSet] at h
    split_ifs at h with hk
    · rcases List.mem_cons.mp h with h | h
      · exact Or.inr h
      · exact Or.inl (List.mem_cons_of_mem _ h)
    · rcases List.mem_cons.mp h with h | h
      · exact Or.inl (h ▸ List.mem_cons_self _ _)
      · rcases ih k v kv h with h | h
        · exact Or.inl (List.mem_cons_of_mem _ h)
        · exact Or.inr h

/-- `update_relationship` keeps every stored score in `[0, 100]`. -/
theorem update_relationship_WF {m : RelMatrix} (h : ∀ kv ∈ m, 0 ≤ kv.2 ∧ kv.2 ≤ 100)
    (a b : String) (d : Int) :
    ∀ kv ∈ update_relationship m a b d, 0 ≤ kv.2 ∧ kv.2 ≤ 100 := by
  unfold update_relationship
  split_ifs with hab
  · exact h
  · intro kv hkv
    rcases matSet_mem m _ _ kv hkv with hm | he
    · exact h kv hm
    · rw [he]
      refine ⟨le_max_left _ _, max_le (by omega) (min_le_left _ _)⟩

/-- `simulate_interaction_outcome` keeps every stored score in `[0, 100]`. -/
theorem simulate_WF {m : RelMatrix} (h : ∀ kv ∈ m, 0 ≤ kv.2 ∧ kv.2 ≤ 100)
    (a b t : String) (success : Bool) :
    ∀ kv ∈ (simulate_interaction_outcome m a b t success).2, 0 ≤ kv.2 ∧ kv.2 ≤ 100 := by
  simp only [simulate_interaction_outcome]
  split_ifs with hab _hd
  · exact h
  · exact update_relationship_WF h a b _
  · exact h

/-- Scores read out of a bounded matrix lie in `[0, 100]`. -/
theorem get_relationship_score_bounds (m : RelMatrix)
    (hWF : ∀ kv ∈ m, 0 ≤ kv.2 ∧ kv.2 ≤ 100) (a b : String) :
    0 ≤ get_relationship_score m a b ∧ get_relationship_score m a b ≤ 100 := by
  unfold get_relationship_score
  split_ifs with hab
  · omega
  · cases hl : matLookup m (relKey a b) with
    | none => simp
    | some v =>
      have := hWF _ (matLookup_mem m _ v hl)
      simpa using this

/-- **C8.**  From the engine's initial empty matrix, any sequence of
`update_relationship` / `simulate_interaction_outcome` calls keeps the score
function symmetric, keeps every stored score in `[0, 100]`, reads an absent
pair as the default 50, and reads a self pair as 100. -/
theorem relationship_invariants (m : RelMatrix) (hreach : RelReach m) :
    (∀ a b, get_relationship_score m a b = get_relationship_score m b a)
    ∧ (∀ kv ∈ m, 0 ≤ kv.2 ∧ kv.2 ≤ 100)
    ∧ (∀ a b, a ≠ b → matLookup m (relKey a b) = none → get_relationship_score m a b = 50)
    ∧ (∀ a, get_relationship_score m a a = 100) := by
  refine ⟨?_, ?_, ?_, ?_⟩
  · intro a b
    unfold get_relationship_score
    by_cases hab : a = b
    · rw [hab]
    · rw [if_neg hab, if_neg (fun hba => hab hba.symm), relKey_comm]
  · induction hreach with
    | init => intro kv hkv; simp at hkv
    | upd m a b d _ ih => exact update_relationship_WF ih a b d
    | sim m a b t s _ ih => exact simulate_WF ih a b t s
  · intro a b hab hnone
    unfold get_relationship_score
    rw [if_neg hab, hnone]
    rfl
  · intro a
    unfold get_relationship_score
    rw [if_pos rfl]

/-- **C8, witness**: one update on `("Amy", "Bob")`, checked at concrete
pairs. -/
theorem relationship_invariants_witness :
    get_relationship_score (update_relationship [] "Amy" "Bob" 10) "Bob" "Amy"
      = get_relationship_score (update_relationship [] "Amy" "Bob" 10) "Amy" "Bob"
    ∧ get_relationship_score (update_relationship [] "Amy" "Bob" 10) "Amy" "Amy" = 100 :=
  ⟨(relationship_invariants _ (RelReach.upd [] "Amy" "Bob" 10 RelReach.init)).1 "Bob" "Amy",
   (relationship_invariants _ (RelReach.upd [] "Amy" "Bob" 10 RelReach.init)).2.2.2 "Amy"⟩

/-! ### C1: the roast intensity modifier -/

/-- The index of the score band used by `intensityOfScore` (0 = lowest
scores, 4 = highest). -/
def scoreBand (s : Int) : Nat :=
  if s ≥ 80 then 4 else if s ≥ 60 then 3 else if s ≥ 40 then 2 else if s ≥ 20 then 1 else 0

/-- Lower bound of `intensityOfScore` on each band (scores in `[0, 100]`). -/
def bandLo (i : Nat) : ℚ :=
  if i = 0 then 131/100 else if i = 1 then 111/100 else if i = 2 then 9/10
  else if i = 3 then 7/10 else 1/2

/-- Upper bound of `intensityOfScore` on each band (scores in `[0, 100]`). -/
def bandHi (i : Nat) : ℚ :=
  if i = 0 then 3/2 else if i = 1 then 13/10 else if i = 2 then 109/100
  else if i = 3 then 89/100 else 7/10

/-- On `[0, 100]`, the intensity stays within its band's bounds. -/
theorem intensity_lo_hi (s : Int) (h0 : 0 ≤ s) (h100 : s ≤ 100) :
    bandLo (scoreBand s) ≤ intensityOfScore s ∧ intensityOfScore s ≤ bandHi (scoreBand s) := by
  have hq0 : (0 : ℚ) ≤ (s : ℚ) := by exact_mod_cast h0
  have hq100 : (s : ℚ) ≤ 100 := by exact_mod_cast h100
  unfold intensityOfScore scoreBand
  split_ifs with h80 h60 h40 h20
  · have h : (80 : ℚ) ≤ (s : ℚ) := by exact_mod_cast h80
    constructor <;> · simp only [bandLo, bandHi]; norm_num; linarith
  · have h : (60 : ℚ) ≤ (s : ℚ) := by exact_mod_cast h60
    have h' : (s : ℚ) ≤ 79 := by exact_mod_cast (by omega : s ≤ 79)
    constructor <;> · simp only [bandLo, bandHi]; norm_num; linarith
  · have h : (40 : ℚ) ≤ (s : ℚ) := by exact_mod_cast h40
    have h' : (s : ℚ) ≤ 59 := by exact_mod_cast (by omega : s ≤ 59)
    constructor <;> · simp only [bandLo, bandHi]; norm_num; linarith
  · have h : (20 : ℚ) ≤ (s : ℚ) := by exact_mod_cast h20
    have h' : (s : ℚ) ≤ 39 := by exact_mod_cast (by omega : s ≤ 39)
    constructor <;> · simp only [bandLo, bandHi]; norm_num; linarith
  · have h' : (s : ℚ) ≤ 19 := by exact_mod_cast (by omega : s ≤ 19)
    constructor <;> · simp only [bandLo, bandHi]; norm_num; linarith

/-- The band index is monotone in the score. -/
theorem scoreBand_mono {s t : Int} (h : s ≤ t) : scoreBand s ≤ scoreBand t := by
  unfold scoreBand
  split_ifs <;> omega

/-- Bands are separated: a higher band's upper bound never exceeds a lower
band's lower bound. -/
theorem bandHi_le_bandLo {i j : Nat} (hj : j ≤ 4) (hij : i < j) : bandHi j ≤ bandLo i := by
  interval_cases j <;> interval_cases i <;> norm_num [bandLo, bandHi]

/-- Band bounds themselves stay within `[1/2, 3/2]`. -/
theorem band_bounds_in_range : ∀ i : Nat, 1/2 ≤ bandLo i ∧ bandHi i ≤ 3/2 := by
  intro i
  unfold bandLo bandHi
  split_ifs <;> norm_num

/-- `scoreBand` only takes values up to 4. -/
theorem scoreBand_le_four (s : Int) : scoreBand s ≤ 4 := by
  unfold scoreBand
  split_ifs <;> omega

/-- **C1, counterexample.**  The modifier is not non-increasing in the
relationship score: raising the `("Amy", "Bob")` score from 80 to 100 raises
the modifier from 0.5 to 0.7. -/
theorem roast_intensity_not_monotone :
    get_relationship_score (update_relationship [] "Amy" "Bob" 30) "Amy" "Bob" = 80
    ∧ get_relationship_score (update_relationship [] "Amy" "Bob" 50) "Amy" "Bob" = 100
    ∧ get_roast_intensity_modifier (update_relationship [] "Amy" "Bob" 30) "Amy" "Bob" = 1/2
    ∧ get_roast_intensity_modifier (update_relationship [] "Amy" "Bob" 50) "Amy" "Bob" = 7/10
    ∧ ¬ (get_roast_intensity_modifier (update_relationship [] "Amy" "Bob" 50) "Amy" "Bob"
        ≤ get_roast_intensity_modifier (update_relationship [] "Amy" "Bob" 30) "Amy" "Bob") := by
  have h80 : get_relationship_score (update_relationship [] "Amy" "Bob" 30) "Amy" "Bob" = 80 := by
    decide
  have h100 : get_relationship_score (update_relationship [] "Amy" "Bob" 50) "Amy" "Bob" = 100 := by
    decide
  have hm80 : get_roast_intensity_modifier (update_relationship [] "Amy" "Bob" 30) "Amy" "Bob"
      = 1/2 := by
    rw [get_roast_intensity_modifier, if_neg (by decide : ¬ ("Amy" : String) = "Bob"), h80]
    norm_num [intensityOfScore]
  have hm100 : get_roast_intensity_modifier (update_relationship [] "Amy" "Bob" 50) "Amy" "Bob"
      = 7/10 := by
    rw [get_roast_intensity_modifier, if_neg (by decide : ¬ ("Amy" : String) = "Bob"), h100]
    norm_num [intensityOfScore]
  refine ⟨h80, h100, hm80, hm100, ?_⟩
  rw [hm80, hm100]
  norm_num

/-- **C1, amended.**  For distinct personas the modifier equals the claimed
piecewise-linear formula of the stored score and always lies in `[0.5, 1.5]`;
the self pair returns 1.0.  The claimed monotonicity holds only across bands:
for scores in different bands the higher score gives the smaller (or equal)
modifier, while inside the three upper bands the modifier increases with the
score. -/
theorem roast_intensity_modifier_spec (m : RelMatrix) (roaster target : String) (s1 s2 : Int)
    (hWF : ∀ kv ∈ m, 0 ≤ kv.2 ∧ kv.2 ≤ 100) (hne : roaster ≠ target)
    (hs0 : 0 ≤ s1) (hs12 : s1 < s2) (hs100 : s2 ≤ 100)
    (hband : scoreBand s1 ≠ scoreBand s2) :
    get_roast_intensity_modifier m roaster roaster = 1
    ∧ get_roast_intensity_modifier m roaster target
        = intensityOfScore (get_relationship_score m roaster target)
    ∧ 1/2 ≤ get_roast_intensity_modifier m roaster target
    ∧ get_roast_intensity_modifier m roaster target ≤ 3/2
    ∧ (80 ≤ get_relationship_score m roaster target →
        get_roast_intensity_modifier m roaster target
          = 0.5 + ((get_relationship_score m roaster target : ℚ) - 80) * 0.01)
    ∧ (60 ≤ get_relationship_score m roaster target → get_relationship_score m roaster target < 80 →
        get_roast_intensity_modifier m roaster target
          = 0.7 + ((get_relationship_score m roaster target : ℚ) - 60) * 0.01)
    ∧ (40 ≤ get_relationship_score m roaster target → get_relationship_score m roaster target < 60 →
        get_roast_intensity_modifier m roaster target
          = 0.9 + ((get_relationship_score m roaster target : ℚ) - 40) * 0.01)
    ∧ (20 ≤ get_relationship_score m roaster target → get_relationship_score m roaster target < 40 →
        get_roast_intensity_modifier m roaster target
          = 1.1 + (40 - (get_relationship_score m roaster target : ℚ)) * 0.01)
    ∧ (get_relationship_score m roaster target < 20 →
        get_roast_intensity_modifier m roaster target
          = 1.3 + (20 - (get_relationship_score m roaster target : ℚ)) * 0.01)
    ∧ intensityOfScore s2 ≤ intensityOfScore s1 := by
  have hself : get_roast_intensity_modifier m roaster roaster = 1 := by
    rw [get_roast_intensity_modifier, if_pos rfl]
    norm_num
  have heq : get_roast_intensity_modifier m roaster target
      = intensityOfScore (get_relationship_score m roaster target) := by
    rw [get_roast_intensity_modifier, if_neg hne]
  have hsb := get_relationship_score_bounds m hWF roaster target
  have hrange := intensity_lo_hi (get_relationship_score m roaster target) hsb.1 hsb.2
  have hbb := band_bounds_in_range (scoreBand (get_relationship_score m roaster target))
  refine ⟨hself, heq, ?_, ?_, ?_, ?_, ?_, ?_, ?_, ?_⟩
  · rw [heq]; linarith [hrange.1, hbb.1]
  · rw [heq]; linarith [hrange.2, hbb.2]
  · intro h
    rw [heq, intensityOfScore, if_pos h]
  · intro h h'
    rw [heq, intensityOfScore, if_neg (by omega), if_pos h]
  · intro h h'
    rw [heq, intensityOfScore, if_neg (by omega), if_neg (by omega), if_pos h]
  · intro h h'
    rw [heq, intensityOfScore, if_neg (by omega), if_neg (by omega), if_neg (by omega), if_pos h]
  · intro h
    rw [heq, intensityOfScore, if_neg (by omega), if_neg (by omega), if_neg (by omega),
      if_neg (by omega)]
  · have hb : scoreBand s1 < scoreBand s2 := lt_of_le_of_ne (scoreBand_mono hs12.le) hband
    have h1 := intensity_lo_hi s1 hs0 (by omega)
    have h2 := intensity_lo_hi s2 (by omega) hs100
    calc intensityOfScore s2 ≤ bandHi (scoreBand s2) := h2.2
      _ ≤ bandLo (scoreBand s1) := bandHi_le_bandLo (scoreBand_le_four s2) hb
      _ ≤ intensityOfScore s1 := h1.1

/-- **C1, witness**: the empty matrix, the pair `("Amy", "Bob")`, and the
cross-band scores 30 and 50. -/
theorem roast_intensity_modifier_spec_witness :
    get_roast_intensity_modifier [] "Amy" "Amy" = 1
    ∧ get_roast_intensity_modifier [] "Amy" "Bob"
        = intensityOfScore (get_relationship_score [] "Amy" "Bob")
    ∧ 1/2 ≤ get_roast_intensity_modifier [] "Amy" "Bob"
    ∧ get_roast_intensity_modifier [] "Amy" "Bob" ≤ 3/2
    ∧ (80 ≤ get_relationship_score [] "Amy" "Bob" →
        get_roast_intensity_modifier [] "Amy" "Bob"
          = 0.5 + ((get_relationship_score [] "Amy" "Bob" : ℚ) - 80) * 0.01)
    ∧ (60 ≤ get_relationship_score [] "Amy" "Bob" → get_relationship_score [] "Amy" "Bob" < 80 →
        get_roast_intensity_modifier [] "Amy" "Bob"
          = 0.7 + ((get_relationship_score [] "Amy" "Bob" : ℚ) - 60) * 0.01)
    ∧ (40 ≤ get_relationship_score [] "Amy" "Bob" → get_relationship_score [] "Amy" "Bob" < 60 →
        get_roast_intensity_modifier [] "Amy" "Bob"
          = 0.9 + ((get_relationship_score [] "Amy" "Bob" : ℚ) - 40) * 0.01)
    ∧ (20 ≤ get_relationship_score [] "Amy" "Bob" → get_relationship_score [] "Amy" "Bob" < 40 →
        get_roast_intensity_modifier [] "Amy" "Bob"
          = 1.1 + (40 - (get_relationship_score [] "Amy" "Bob" : ℚ)) * 0.01)
    ∧ (get_relationship_score [] "Amy" "Bob" < 20 →
        get_roast_intensity_modifier [] "Amy" "Bob"
          = 1.3 + (20 - (get_relationship_score [] "Amy" "Bob" : ℚ)) * 0.01)
    ∧ intensityOfScore 50 ≤ intensityOfScore 30 :=
  roast_intensity_modifier_spec [] "Amy" "Bob" 30 50 (by simp) (by decide)
    (by decide) (by decide) (by decide) (by decide)

/-! ### Helper lemmas for the analyzer -/

/-- A prefix only uses characters of the larger list. -/
theorem isPrefB_sub : ∀ (n h : List Char), isPrefB n h = true → ∀ c ∈ n, c ∈ h := by
  intro n
  induction n with
  | nil => intro h _ c hc; simp at hc
  | cons a as ih =>
    intro h hp c hc
    cases h with
    | nil => simp [isPrefB] at hp
    | cons b bs =>
      simp only [isPrefB, Bool.and_eq_true, beq_iff_eq] at hp
      rcases List.mem_cons.mp hc with rfl | hc
      · exact hp.1 ▸ List.mem_cons_self _ _
      · exact List.mem_cons_of_mem _ (ih bs hp.2 c hc)

/-- A substring only uses characters of the haystack. -/
theorem containsSeq_sub : ∀ (hay needle : List Char),
    containsSeq needle hay = true → ∀ c ∈ needle, c ∈ hay := by
  intro hay
  induction hay with
  | nil =>
    intro needle h c hc
    simp only [containsSeq, List.isEmpty_iff] at h
    subst h
    simp at hc
  | cons b bs ih =>
    intro needle h c hc
    simp only [containsSeq, Bool.or_eq_true] at h
    rcases h with h | h
    · exact isPrefB_sub needle (b :: bs) h c hc
    · exact List.mem_cons_of_mem _ (ih needle h c hc)

/-- A needle with a non-whitespace character is never found in an
all-whitespace haystack. -/
theorem strIn_false_of_ws (w : String) (hay : List Char)
    (hw : w.data.any (fun c => !c.isWhitespace) = true)
    (hh : ∀ c ∈ hay, c.isWhitespace = true) : strIn w hay = false := by
  rw [Bool.eq_false_iff]
  intro h
  obtain ⟨c, hc, hcw⟩ := List.any_eq_true.mp hw
  have hmem := containsSeq_sub hay w.data h c hc
  rw [hh c hmem] at hcw
  simp at hcw

/-- Splitting a list with no kept characters yields no runs. -/
theorem splitRuns_eq_nil (keep : Char → Bool) : ∀ (l : List Char),
    (∀ c ∈ l, keep c = false) → splitRuns keep l [] = [] := by
  intro l
  induction l with
  | nil => intro _; rfl
  | cons c rest ih =>
    intro h
    have hc := h c (List.mem_cons_self _ _)
    rw [splitRuns, if_neg (by simp [hc]), if_pos (by simp)]
    exact ih (fun x hx => h x (List.mem_cons_of_mem _ hx))

/-- Characters of a produced run come from the input or the accumulator. -/
theorem splitRuns_mem (keep : Char → Bool) : ∀ (l acc w : List Char),
    w ∈ splitRuns keep l acc → ∀ c ∈ w, c ∈ l ∨ c ∈ acc := by
  intro l
  induction l with
  | nil =>
    intro acc w hw c hc
    simp only [splitRuns] at hw
    split_ifs at hw with he
    · simp at hw
    · simp only [List.mem_singleton] at hw
      subst hw
      exact Or.inr (List.mem_reverse.mp hc)
  | cons b bs ih =>
    intro acc w hw c hc
    simp only [splitRuns] at hw
    split_ifs at hw with h1 h2
    · rcases ih (b :: acc) w hw c hc with h | h
      · exact Or.inl (List.mem_cons_of_mem _ h)
      · rcases List.mem_cons.mp h with rfl | h
        · exact Or.inl (List.mem_cons_self _ _)
        · exact Or.inr h
    · rcases ih [] w hw c hc with h | h
      · exact Or.inl (List.mem_cons_of_mem _ h)
      · simp at h
    · rcases List.mem_cons.mp hw with rfl | hw
      · exact Or.inr (List.mem_reverse.mp hc)
      · rcases ih [] w hw c hc with h | h
        · exact Or.inl (List.mem_cons_of_mem _ h)
        · simp at h

/-- ASCII uppercase test in terms of code points. -/
theorem isUpper_iff (c : Char) : c.isUpper = true ↔ 65 ≤ c.toNat ∧ c.toNat ≤ 90 := by
  simp only [Char.isUpper, Bool.and_eq_true, decide_eq_true_eq]
  constructor
  · rintro ⟨h1, h2⟩
    exact ⟨h1, h2⟩
  · rintro ⟨h1, h2⟩
    exact ⟨h1, h2⟩

/-- `Char.ofNat` of a valid code point has that code point. -/
theorem char_ofNat_toNat {n : Nat} (h : n.isValidChar) : (Char.ofNat n).toNat = n := by
  simp [Char.ofNat, h, Char.ofNatAux, Char.toNat, UInt32.toNat, UInt32.ofNat]

/-- Lower-casing never produces an ASCII uppercase letter. -/
theorem lowerChar_not_upper (c : Char) : (lowerChar c).isUpper = false := by
  unfold lowerChar
  split_ifs with h
  · have hv : (c.toNat + 32).isValidChar := Or.inl (by omega)
    have ht : (Char.ofNat (c.toNat + 32)).toNat = c.toNat + 32 := char_ofNat_toNat hv
    rw [Bool.eq_false_iff]
    intro hu
    have := (isUpper_iff _).mp hu
    omega
  · rw [Bool.eq_false_iff]
    intro hu
    have := (isUpper_iff _).mp hu
    omega

/-- Lower-casing fixes whitespace characters. -/
theorem lowerChar_ws {c : Char} (h : c.isWhitespace = true) : lowerChar c = c := by
  have h4 : c = ' ' ∨ c = '\t' ∨ c = '\x0d' ∨ c = '\n' := by
    simp only [Char.isWhitespace, Bool.or_eq_true, decide_eq_true_eq] at h
    tauto
  rcases h4 with rfl | rfl | rfl | rfl <;> decide

/-- Lower-casing an all-whitespace list yields an all-whitespace list. -/
theorem lowerL_ws {l : List Char} (h : ∀ c ∈ l, c.isWhitespace = true) :
    ∀ c ∈ lowerL l, c.isWhitespace = true := by
  intro c hc
  obtain ⟨c0, hc0, rfl⟩ := List.mem_map.mp hc
  rw [lowerChar_ws (h c0 hc0)]
  exact h c0 hc0

/-- Whitespace characters are not word characters. -/
theorem wordChar_ws {c : Char} (h : c.isWhitespace = true) : wordChar c = false := by
  have h4 : c = ' ' ∨ c = '\t' ∨ c = '\x0d' ∨ c = '\n' := by
    simp only [Char.isWhitespace, Bool.or_eq_true, decide_eq_true_eq] at h
    tauto
  rcases h4 with rfl | rfl | rfl | rfl <;> decide

/-- Presence filter over an all-whitespace haystack is empty (for keyword
lists whose entries all have a non-whitespace character). -/
theorem presence_filter_nil (L : List String) (hay : List Char)
    (hL : ∀ w ∈ L, w.data.any (fun c => !c.isWhitespace) = true)
    (hh : ∀ c ∈ hay, c.isWhitespace = true) :
    L.filter (fun w => strIn w hay) = [] := by
  rw [List.filter_eq_nil_iff]
  intro w hw
  simp [strIn_false_of_ws w hay (hL w hw) hh]

/-- Every topic keyword has a non-whitespace character. -/
theorem topic_keywords_nonws : ∀ tk ∈ topic_keywords, ∀ w ∈ tk.2,
    w.data.any (fun c => !c.isWhitespace) = true := by decide

/-- Every behavioural indicator has a non-whitespace character. -/
theorem behavioral_patterns_nonws : ∀ bp ∈ behavioral_patterns, ∀ w ∈ bp.2,
    w.data.any (fun c => !c.isWhitespace) = true := by decide

/-- Every urgency indicator has a non-whitespace character. -/
theorem urgency_indicators_nonws : ∀ w ∈ urgency_indicators,
    w.data.any (fun c => !c.isWhitespace) = true := by decide

/-- Every question word has a non-whitespace character. -/
theorem questionWords_nonws : ∀ w ∈ questionWords,
    w.data.any (fun c => !c.isWhitespace) = true := by decide

/-- On an all-whitespace (lower-cased) message every analyzer component is
neutral. -/
theorem analyze_components_neutral {s : String} (hws : ∀ c ∈ s.data, c.isWhitespace = true) :
    analyze_message s = neutralResult := by
  have hlow : ∀ c ∈ lowerL s.data, c.isWhitespace = true := lowerL_ws hws
  have hsplit : splitWs (lowerL s.data) = [] :=
    splitRuns_eq_nil _ _ (fun c hc => by simp [hlow c hc])
  have hwords : findWords (lowerL s.data) = [] :=
    splitRuns_eq_nil _ _ (fun c hc => wordChar_ws (hlow c hc))
  have htop : _detect_topics (lowerL s.data) = [] := by
    unfold _detect_topics
    rw [List.filterMap_eq_nil_iff]
    intro tk htk
    rw [if_neg ?_]
    intro hany
    obtain ⟨k, hk, hkin⟩ := List.any_eq_true.mp hany
    rw [strIn_false_of_ws k _ (topic_keywords_nonws tk htk k hk) hlow] at hkin
    simp at hkin
  have hfl : _detect_behavioral_flags (lowerL s.data) = [] := by
    unfold _detect_behavioral_flags
    rw [List.filterMap_eq_nil_iff]
    intro bp hbp
    rw [if_neg ?_]
    intro hany
    obtain ⟨k, hk, hkin⟩ := List.any_eq_true.mp hany
    rw [strIn_false_of_ws k _ (behavioral_patterns_nonws bp hbp k hk) hlow] at hkin
    simp at hkin
  have hcnt : urgencyCount (lowerL s.data) = 0 := by
    simp only [urgencyCount]
    rw [presence_filter_nil _ _ urgency_indicators_nonws hlow]
    rw [strIn_false_of_ws "!!!" _ (by decide) hlow]
    have hbang : (lowerL s.data).count '!' = 0 :=
      List.count_eq_zero.mpr (fun hmem => absurd (hlow _ hmem) (by decide))
    rw [hbang, hsplit]
    simp
  have hurg : _detect_urgency (lowerL s.data) = 0 := by
    rw [_detect_urgency, hcnt]
    norm_num
  have hsent : _analyze_sentiment (lowerL s.data) = 0 := by
    simp only [_analyze_sentiment]
    rw [hsplit]
    simp
  have hqm : s.data.count '?' = 0 :=
    List.count_eq_zero.mpr (fun hmem => absurd (hws _ hmem) (by decide))
  have hqf : questionWords.filter (fun w => strIn w (lowerL s.data)) = [] :=
    presence_filter_nil _ _ questionWords_nonws hlow
  have hrep : _detect_repeated_phrases (lowerL s.data) = [] := by
    simp only [_detect_repeated_phrases]
    rw [hwords]
    simp [dedupFirst]
  simp only [analyze_message]
  rw [htop, hsent, hurg, hqm, hqf, hrep, hfl]
  simp [neutralResult]

/-- **C4, counterexample.**  Calling the analyzer with `None` is not
defensively treated as empty text: the first statement `message.lower()`
raises `AttributeError`. -/
theorem analyze_none_counterexample :
    analyze_message_dyn none = Except.error "AttributeError" := rfl

/-- **C4, amended.**  For every *string* input the analyzer is total; empty
or whitespace-only text yields the neutral defaults (sentiment 0.0,
urgency 0.0, question count 0, empty topic, phrase and flag collections).
A `None`/non-string input is not defended and raises. -/
theorem analyze_neutral_spec :
    analyze_message "" = neutralResult
    ∧ ∀ s : String, (∀ c ∈ s.data, c.isWhitespace = true) →
        analyze_message s = neutralResult := by
  refine ⟨?_, fun s hws => analyze_components_neutral hws⟩
  exact analyze_components_neutral (by decide)

/-- **C4, witness**: a single-space message. -/
theorem analyze_neutral_spec_witness : analyze_message " " = neutralResult :=
  analyze_neutral_spec.2 " " (by decide)

/-! ### C5: the urgency formula -/

/-- The count behind the urgency formula exactly as the claim states it:
indicator hits and the exclamation bonus on the lower-cased text, plus one per
all-caps word longer than two characters *in the original text*. -/
def urgencySpecClaimCount (text : String) : Nat :=
  let lower := lowerL text.data
  let base := (urgency_indicators.filter (fun w => strIn w lower)).length
  let base2 := if strIn "!!!" lower || lower.count '!' > 2 then base + 2 else base
  base2 + ((splitWs text.data).filter (fun w => pyIsUpper w && w.length > 2)).length

/-- The urgency formula exactly as the claim states it. -/
def urgencySpecClaim (text : String) : ℚ := min 1 ((urgencySpecClaimCount text : ℚ) / 5)

/-- The count the code actually accumulates: the all-caps bonus is evaluated
on the lower-cased text, where it can never fire, so it disappears. -/
def urgencySpecAmendedCount (text : String) : Nat :=
  let lower := lowerL text.data
  let base := (urgency_indicators.filter (fun w => strIn w lower)).length
  if strIn "!!!" lower || lower.count '!' > 2 then base + 2 else base

/-- The urgency formula as amended. -/
def urgencySpecAmended (text : String) : ℚ := min 1 ((urgencySpecAmendedCount text : ℚ) / 5)

/-- No word of a lower-cased message passes the all-caps test. -/
theorem caps_lowered_zero (l : List Char) :
    (splitWs (lowerL l)).filter (fun w => pyIsUpper w && w.length > 2) = [] := by
  rw [List.filter_eq_nil_iff]
  intro w hw
  have hsub : ∀ c ∈ w, c ∈ lowerL l := by
    intro c hc
    rcases splitRuns_mem _ (lowerL l) [] w hw c hc with h | h
    · exact h
    · simp at h
  have hup : pyIsUpper w = false := by
    by_cases hany : w.any (fun c => c.isAlpha) = true
    · obtain ⟨c, hc, hca⟩ := List.any_eq_true.mp hany
      obtain ⟨c0, _, rfl⟩ := List.mem_map.mp (hsub c hc)
      have hnu := lowerChar_not_upper c0
      have hall : w.all (fun c => !c.isAlpha || c.isUpper) = false := by
        rw [List.all_eq_false]
        exact ⟨lowerChar c0, hc, by simp [hca, hnu]⟩
      unfold pyIsUpper
      rw [hall, Bool.and_false]
    · rw [Bool.not_eq_true] at hany
      unfold pyIsUpper
      rw [hany, Bool.false_and]
  simp [hup]

/-- **C5, counterexample.**  On `"I NEED help NOW"` the code yields urgency
`2/5` (the caps bonus runs on the lower-cased text and never fires), while
the claimed formula — caps counted in the original text — yields `4/5`. -/
theorem urgency_caps_counterexample :
    (analyze_message "I NEED help NOW").urgency = 2/5
    ∧ urgencySpecClaim "I NEED help NOW" = 4/5
    ∧ (analyze_message "I NEED help NOW").urgency ≠ urgencySpecClaim "I NEED help NOW" := by
  have h1 : urgencyCount (lowerL "I NEED help NOW".data) = 2 := by decide
  have hcode : (analyze_message "I NEED help NOW").urgency = 2/5 := by
    simp only [analyze_message]
    rw [_detect_urgency, h1]
    norm_num
  have h4 : urgencySpecClaimCount "I NEED help NOW" = 4 := by decide
  have hclaim : urgencySpecClaim "I NEED help NOW" = 4/5 := by
    rw [urgencySpecClaim, h4]
    norm_num
  refine ⟨hcode, hclaim, ?_⟩
  rw [hcode, hclaim]
  norm_num

/-- **C5, amended.**  The urgency the analyzer returns equals the claimed
formula with the all-caps bonus evaluated on the lower-cased text — where it
is always zero — and is clamped to `[0, 1]`; the spec's concrete example
still reaches urgency 1.0. -/
theorem urgency_spec (text : String) (_hascii : ∀ c ∈ text.data, c.toNat < 128) :
    (analyze_message text).urgency = urgencySpecAmended text
    ∧ 0 ≤ (analyze_message text).urgency
    ∧ (analyze_message text).urgency ≤ 1
    ∧ (analyze_message "I am SO stressed!!! this is urgent, help now").urgency = 1 := by
  have hcaps := caps_lowered_zero text.data
  have hcount : urgencyCount (lowerL text.data) = urgencySpecAmendedCount text := by
    simp only [urgencyCount, urgencySpecAmendedCount]
    rw [hcaps]
    simp
  have heq : (analyze_message text).urgency = urgencySpecAmended text := by
    simp only [analyze_message, _detect_urgency, urgencySpecAmended]
    rw [hcount]
  refine ⟨heq, ?_, ?_, ?_⟩
  · simp only [analyze_message, _detect_urgency]
    positivity
  · simp only [analyze_message, _detect_urgency]
    exact min_le_left _ _
  · have h5 : urgencyCount (lowerL "I am SO stressed!!! this is urgent, help now".data) = 5 := by
      decide
    simp only [analyze_message]
    rw [_detect_urgency, h5]
    norm_num

/-- **C5, witness**: the ASCII message `"I NEED help NOW"`. -/
theorem urgency_spec_witness :
    (analyze_message "I NEED help NOW").urgency = urgencySpecAmended "I NEED help NOW"
    ∧ 0 ≤ (analyze_message "I NEED help NOW").urgency
    ∧ (analyze_message "I NEED help NOW").urgency ≤ 1
    ∧ (analyze_message "I am SO stressed!!! this is urgent, help now").urgency = 1 :=
  urgency_spec "I NEED help NOW" (by decide)

/-! ### C3: speaker selection -/

/-- Sentiment of the concrete message `"hello SavageBurn"` is 0. -/
theorem sentiment_hello : _analyze_sentiment (lowerL "hello SavageBurn".data) = 0 := by
  have hp : (positiveWords.filter
      (fun w => strIn w (lowerL "hello SavageBurn".data))).length = 0 := by decide
  have hn : (negativeWords.filter
      (fun w => strIn w (lowerL "hello SavageBurn".data))).length = 0 := by decide
  have hw : (splitWs (lowerL "hello SavageBurn".data)).length = 2 := by decide
  unfold _analyze_sentiment
  rw [hp, hn, hw]
  norm_num

/-- The analyzer is fully neutral on `"hello SavageBurn"`. -/
theorem analyze_hello : analyze_message "hello SavageBurn" = neutralResult := by
  have heta : analyze_message "hello SavageBurn" =
      { topics := (analyze_message "hello SavageBurn").topics
        sentiment := (analyze_message "hello SavageBurn").sentiment
        urgency := (analyze_message "hello SavageBurn").urgency
        question_count := (analyze_message "hello SavageBurn").question_count
        repeated_phrases := (analyze_message "hello SavageBurn").repeated_phrases
        behavioral_flags := (analyze_message "hello SavageBurn").behavioral_flags } := rfl
  have ht : (analyze_message "hello SavageBurn").topics = [] := by decide
  have hs : (analyze_message "hello SavageBurn").sentiment = 0 := sentiment_hello
  have hu : (analyze_message "hello SavageBurn").urgency = 0 := by
    have h0 : urgencyCount (lowerL "hello SavageBurn".data) = 0 := by decide
    show _detect_urgency (lowerL "hello SavageBurn".data) = 0
    rw [_detect_urgency, h0]
    norm_num
  have hq : (analyze_message "hello SavageBurn").question_count = 0 := by decide
  have hr : (analyze_message "hello SavageBurn").repeated_phrases = [] := by decide
  have hb : (analyze_message "hello SavageBurn").behavioral_flags = [] := by decide
  rw [heta, ht, hs, hu, hq, hr, hb]
  rfl

/-- The candidate pool for a fully neutral analysis is the whole roster. -/
theorem chooseCandidates_neutral : chooseCandidates neutralResult roster9 = roster9 := by
  simp only [chooseCandidates, neutralResult]
  norm_num

/-- **C3, counterexample.**  The message `"hello SavageBurn"` explicitly
names SavageBurn, yet the selection's candidate list (from which
`random.choice` draws) contains CodeMaster, who is not named in the message:
no explicit-name step exists in `_choose_primary_responder`. -/
theorem choose_responder_counterexample :
    namedIn { name := "SavageBurn" } "hello SavageBurn" = true
    ∧ ({ name := "CodeMaster" } : EnhancedRoommate)
        ∈ chooseCandidates (analyze_message "hello SavageBurn") roster9
    ∧ namedIn { name := "CodeMaster" } "hello SavageBurn" = false := by
  refine ⟨by decide, ?_, by decide⟩
  rw [analyze_hello, chooseCandidates_neutral]
  decide

/-- The selection priority as the code implements it, written as a three-way
case split for comparison: topic-interested personas first; if none, the
sentiment/question/urgency heuristic pool; if that is also empty, the whole
roster.  No explicit-name or trigger-phrase step exists. -/
def chooseCandidatesSpec (analysis : AnalysisResult) (roommates : List EnhancedRoommate) :
    List EnhancedRoommate :=
  let topical := analysis.topics.foldl
    (fun acc topic =>
      match tableLookup topic_preferences topic with
      | some names => acc ++ names.filterMap (fun n => roommates.find? (fun r => r.name == n))
      | none => acc)
    []
  let heur : List EnhancedRoommate :=
    if analysis.sentiment < -0.5 then
      roommates.filter (fun r => ["SavageBurn", "DeepThought"].contains r.name)
    else if analysis.question_count > 0 then
      roommates.filter (fun r => ["UncleJi", "CodeMaster", "DeepThought"].contains r.name)
    else if analysis.urgency > 0.5 then
      roommates.filter (fun r => ["SavageBurn", "ChaosKing"].contains r.name)
    else []
  if topical ≠ [] then topical
  else if heur ≠ [] then heur
  else roommates

/-- Fold steps of the topical accumulation only extend the accumulator. -/
theorem foldl_extend_mem {α β : Type} (f : List α → β → List α) (g : β → List α)
    (hf : ∀ acc t, f acc t = acc ++ g t) :
    ∀ (ts : List β) (acc : List α) (x : α),
      x ∈ ts.foldl f acc → x ∈ acc ∨ ∃ t ∈ ts, x ∈ g t := by
  intro ts
  induction ts with
  | nil => intro acc x hx; exact Or.inl hx
  | cons t ts ih =>
    intro acc x hx
    rw [List.foldl_cons, hf] at hx
    rcases ih (acc ++ g t) x hx with h | ⟨t', ht', hx'⟩
    · rcases List.mem_append.mp h with h | h
      · exact Or.inl h
      · exact Or.inr ⟨t, List.mem_cons_self _ _, h⟩
    · exact Or.inr ⟨t', List.mem_cons_of_mem _ ht', hx'⟩

/-- **C3, amended.**  The speaker selection has no explicit-name and no
trigger-phrase step: the candidate pool `random.choice` draws from is exactly
topic lookup, else the sentiment/question/urgency heuristics, else the whole
roster; it is never empty for a non-empty roster, and every candidate comes
from the roster — whether or not the message names a persona. -/
theorem choose_responder_spec (analysis : AnalysisResult) (pool : List EnhancedRoommate)
    (r : EnhancedRoommate) (hpool : pool ≠ [])
    (hr : r ∈ chooseCandidates analysis pool) :
    chooseCandidates analysis pool = chooseCandidatesSpec analysis pool
    ∧ chooseCandidates analysis pool ≠ []
    ∧ r ∈ pool := by
  have key : ∀ (T H P : List EnhancedRoommate),
      (if (if T.isEmpty then H else T).isEmpty then P else if T.isEmpty then H else T)
        = if T ≠ [] then T else if H ≠ [] then H else P := by
    intro T H P
    by_cases hT : T = [] <;> by_cases hH : H = [] <;> simp [hT, hH]
  have heqv : chooseCandidates analysis pool = chooseCandidatesSpec analysis pool := by
    simp only [chooseCandidates, chooseCandidatesSpec]
    exact key _ _ _
  have key2 : ∀ (T H P : List EnhancedRoommate), P ≠ [] →
      (if T ≠ [] then T else if H ≠ [] then H else P) ≠ [] := by
    intro T H P hP
    split_ifs with h1 h2
    · exact h1
    · exact h2
    · exact hP
  have key3 : ∀ (T H P : List EnhancedRoommate) (x : EnhancedRoommate),
      x ∈ (if T ≠ [] then T else if H ≠ [] then H else P) → x ∈ T ∨ x ∈ H ∨ x ∈ P := by
    intro T H P x hx
    split_ifs at hx with h1 h2
    · exact Or.inl hx
    · exact Or.inr (Or.inl hx)
    · exact Or.inr (Or.inr hx)
  have hne : chooseCandidates analysis pool ≠ [] := by
    rw [heqv]
    simp only [chooseCandidatesSpec]
    exact key2 _ _ _ hpool
  have hr2 : r ∈ chooseCandidatesSpec analysis pool := heqv ▸ hr
  have hsub : r ∈ pool := by
    simp only [chooseCandidatesSpec] at hr2
    rcases key3 _ _ _ r hr2 with hT | hH | hP
    · rcases foldl_extend_mem _
          (fun topic => match tableLookup topic_preferences topic with
            | some names => names.filterMap (fun n => pool.find? (fun r => r.name == n))
            | none => [])
          (by
            intro acc t
            show (match tableLookup topic_preferences t with
                | some names => acc ++ names.filterMap (fun n => pool.find? (fun r => r.name == n))
                | none => acc)
              = acc ++ (match tableLookup topic_preferences t with
                | some names => names.filterMap (fun n => pool.find? (fun r => r.name == n))
                | none => [])
            cases tableLookup topic_preferences t <;> simp)
          analysis.topics [] r hT with h | ⟨t, _, hx⟩
      · simp at h
      · revert hx
        cases tableLookup topic_preferences t with
        | none => intro hx; simp at hx
        | some names =>
          intro hx
          obtain ⟨n, _, hfind⟩ := List.mem_filterMap.mp hx
          exact List.mem_of_find?_eq_some hfind
    · revert hH
      split_ifs with hs hq hu <;> intro hH
      · exact List.mem_of_mem_filter hH
      · exact List.mem_of_mem_filter hH
      · exact List.mem_of_mem_filter hH
      · simp at hH
    · exact hP
  exact ⟨heqv, hne, hsub⟩

/-- **C3, witness**: the neutral analysis over the nine-persona roster, with
CodeMaster as the drawn candidate. -/
theorem choose_responder_spec_witness :
    chooseCandidates neutralResult roster9 = chooseCandidatesSpec neutralResult roster9
    ∧ chooseCandidates neutralResult roster9 ≠ []
    ∧ ({ name := "CodeMaster" } : EnhancedRoommate) ∈ roster9 :=
  choose_responder_spec neutralResult roster9 { name := "CodeMaster" } (by decide)
    (by rw [chooseCandidates_neutral]; decide)

/-! ### C2: bounded conversation memory -/

/-- The memories reachable from an initially empty `conversation_memory` by a
sequence of `add_conversation` calls; the first component records the full
sequence of appended entries. -/
inductive MemReach (max_memory_size : Nat) :
    List ConversationEntry → List ConversationEntry → Prop
  | nil : MemReach max_memory_size [] []
  | step (es mem : List ConversationEntry) (e : ConversationEntry) :
      MemReach max_memory_size es mem →
      MemReach max_memory_size (es ++ [e]) (add_conversation max_memory_size mem e)

/-- An append that stays within the limit just appends. -/
theorem add_conversation_no_evict (max_memory_size : Nat) (mem : List ConversationEntry)
    (e : ConversationEntry) (h : mem.length + 1 ≤ max_memory_size) :
    add_conversation max_memory_size mem e = mem ++ [e] := by
  simp only [add_conversation]
  rw [if_neg (by simp only [List.length_append, List.length_singleton]; omega)]

/-- An append from a full memory (length `max_memory_size ≥ 10`): the ten most
recent entries survive untouched at the tail, the result has exactly
`max_memory_size` entries, the surviving older entries are a sub-permutation
of the older entries, and everything discarded has an effectiveness key no
larger than anything kept. -/
theorem add_conversation_evict (max_memory_size : Nat) (mem : List ConversationEntry)
    (e : ConversationEntry) (h10 : 10 ≤ max_memory_size)
    (hlen : mem.length = max_memory_size) :
    ∃ kept dropped,
      add_conversation max_memory_size mem e = kept ++ lastN 10 (mem ++ [e])
      ∧ (add_conversation max_memory_size mem e).length = max_memory_size
      ∧ kept.Subperm ((mem ++ [e]).take ((mem ++ [e]).length - 10))
      ∧ dropped ++ kept
          = List.insertionSort effLE ((mem ++ [e]).take ((mem ++ [e]).length - 10))
      ∧ ∀ x ∈ dropped, ∀ y ∈ kept, effKey x ≤ effKey y := by
  have hm : (mem ++ [e]).length = max_memory_size + 1 := by simp [hlen]
  have hc1 : max_memory_size < (mem ++ [e]).length := by omega
  have hc2 : 10 < (mem ++ [e]).length := by omega
  have holder : ((mem ++ [e]).take ((mem ++ [e]).length - 10)).length = max_memory_size - 9 := by
    rw [List.length_take]
    omega
  have hsortlen :
      (List.insertionSort effLE ((mem ++ [e]).take ((mem ++ [e]).length - 10))).length
        = max_memory_size - 9 := by
    rw [List.length_insertionSort, holder]
  have hrecent : pyLastSlice 10 (mem ++ [e]) = lastN 10 (mem ++ [e]) := by
    rw [pyLastSlice, if_neg (by omega), lastN]
  have hreclen : (lastN 10 (mem ++ [e])).length = 10 := by
    rw [lastN, List.length_drop]
    omega
  have hsorted := List.sorted_insertionSort effLE ((mem ++ [e]).take ((mem ++ [e]).length - 10))
  have hperm := List.perm_insertionSort effLE ((mem ++ [e]).take ((mem ++ [e]).length - 10))
  have hkeepval : ((((mem ++ [e]).take ((mem ++ [e]).length - 10)).length : Int)
      - (((mem ++ [e]).length - max_memory_size : Nat) : Int)) = (max_memory_size : Int) - 10 := by
    rw [holder]
    omega
  simp only [add_conversation]
  rw [if_pos hc1, if_pos hc2, hrecent, hkeepval]
  by_cases hgt : 10 < max_memory_size
  · rw [if_pos (by omega)]
    have htonat : ((max_memory_size : Int) - 10).toNat = max_memory_size - 10 := by omega
    rw [htonat]
    refine ⟨_, (List.insertionSort effLE ((mem ++ [e]).take ((mem ++ [e]).length - 10))).take
      ((List.insertionSort effLE ((mem ++ [e]).take ((mem ++ [e]).length - 10))).length
        - (max_memory_size - 10)), rfl, ?_, ?_, ?_, ?_⟩
    · rw [List.length_append, List.length_drop, hsortlen, hreclen]
      omega
    · exact ((List.drop_sublist _ _).subperm).trans hperm.subperm
    · exact List.take_append_drop _ _
    · have hpw : List.Pairwise effLE
          ((List.insertionSort effLE ((mem ++ [e]).take ((mem ++ [e]).length - 10))).take
              ((List.insertionSort effLE ((mem ++ [e]).take ((mem ++ [e]).length - 10))).length
                - (max_memory_size - 10))
            ++ (List.insertionSort effLE ((mem ++ [e]).take ((mem ++ [e]).length - 10))).drop
              ((List.insertionSort effLE ((mem ++ [e]).take ((mem ++ [e]).length - 10))).length
                - (max_memory_size - 10))) := by
        rw [List.take_append_drop]
        exact hsorted
      exact fun x hx y hy => (List.pairwise_append.mp hpw).2.2 x hx y hy
  · have hms : max_memory_size = 10 := by omega
    rw [if_neg (by omega)]
    refine ⟨[], List.insertionSort effLE ((mem ++ [e]).take ((mem ++ [e]).length - 10)),
      rfl, ?_, List.nil_subperm, List.append_nil _, ?_⟩
    · rw [List.nil_append, hreclen, hms]
    · intro x _ y hy
      simp at hy

/-- The reachability invariant: the memory never exceeds the limit and always
ends with the most recently appended entries. -/
theorem memReach_invariant (max_memory_size : Nat) (h10 : 10 ≤ max_memory_size) :
    ∀ es mem, MemReach max_memory_size es mem →
      mem.length ≤ max_memory_size ∧ lastN (min 10 es.length) es <:+ mem := by
  intro es mem h
  induction h with
  | nil => exact ⟨by simp, by simp [lastN]⟩
  | step es mem e hr ih =>
    obtain ⟨ihlen, ihsuf⟩ := ih
    have hlen1 : (es ++ [e]).length = es.length + 1 := by simp
    have hone : 1 ≤ min 10 (es.length + 1) := by omega
    have hsplitlast : lastN (min 10 (es.length + 1)) (es ++ [e])
        = lastN (min 10 (es.length + 1) - 1) es ++ [e] := by
      rw [lastN, lastN, hlen1]
      rw [List.drop_append_of_le_length (by omega)]
      congr 2
      omega
    have hmono : lastN (min 10 (es.length + 1) - 1) es <:+ lastN (min 10 es.length) es := by
      rw [lastN, lastN]
      rw [show es.length - (min 10 (es.length + 1) - 1)
          = (es.length - min 10 es.length)
            + ((es.length - (min 10 (es.length + 1) - 1)) - (es.length - min 10 es.length))
        from by omega]
      rw [← List.drop_drop]
      exact List.drop_suffix _ _
    have hsufstep : lastN (min 10 (es ++ [e]).length) (es ++ [e]) <:+ mem ++ [e] := by
      rw [hlen1, hsplitlast]
      obtain ⟨t, ht⟩ := hmono.trans ihsuf
      exact ⟨t, by rw [← List.append_assoc, ht]⟩
    by_cases hc : mem.length + 1 ≤ max_memory_size
    · rw [add_conversation_no_evict _ _ _ hc]
      constructor
      · simp only [List.length_append, List.length_singleton]
        omega
      · exact hsufstep
    · have hfull : mem.length = max_memory_size := by omega
      obtain ⟨kept, dropped, heq, hlen', _, _, _⟩ :=
        add_conversation_evict max_memory_size mem e h10 hfull
      constructor
      · exact le_of_eq hlen'
      · rw [heq]
        have hsuffix10 : lastN (min 10 (es ++ [e]).length) (es ++ [e])
            <:+ lastN 10 (mem ++ [e]) := by
        -- the appended suffix has length ≤ 10 and the last-10 slice is also a
        -- suffix of `mem ++ [e]`, so the shorter is a suffix of the longer
          apply List.suffix_of_suffix_length_le hsufstep (by rw [lastN]; exact List.drop_suffix _ _)
          rw [lastN, lastN, List.length_drop, List.length_drop]
          simp only [List.length_append, List.length_singleton]
          omega
        exact hsuffix10.trans (List.suffix_append kept _)

/-- **C2, counterexample.**  With `maxMemorySize = 5` the claim fails: after
six appends the memory holds 5 entries, so the first entry — one of the (at
most) 10 most recently appended — has been dropped. -/
theorem memory_append_counterexample :
    addAll 5 [] [⟨"user", "m1", none⟩, ⟨"user", "m2", none⟩, ⟨"user", "m3", none⟩,
        ⟨"user", "m4", none⟩, ⟨"user", "m5", none⟩, ⟨"user", "m6", none⟩]
      = [⟨"user", "m2", none⟩, ⟨"user", "m3", none⟩, ⟨"user", "m4", none⟩,
        ⟨"user", "m5", none⟩, ⟨"user", "m6", none⟩]
    ∧ (⟨"user", "m1", none⟩ : ConversationEntry)
        ∈ lastN 10 [⟨"user", "m1", none⟩, ⟨"user", "m2", none⟩, ⟨"user", "m3", none⟩,
            ⟨"user", "m4", none⟩, ⟨"user", "m5", none⟩, ⟨"user", "m6", none⟩]
    ∧ (⟨"user", "m1", none⟩ : ConversationEntry)
        ∉ addAll 5 [] [⟨"user", "m1", none⟩, ⟨"user", "m2", none⟩, ⟨"user", "m3", none⟩,
            ⟨"user", "m4", none⟩, ⟨"user", "m5", none⟩, ⟨"user", "m6", none⟩] := by
  refine ⟨by decide, by decide, by decide⟩

/-- **C2, amended.**  For `maxMemorySize ≥ 10`, after any sequence of appends
from the empty memory the length is at most `maxMemorySize` and the
`min 10 n` most recently appended entries (of `n` appended) are a suffix of
the memory; when an append overflows a full memory, the ten most recent
entries are preserved untouched, the total returns to exactly
`maxMemorySize`, and the entries discarded from the older portion are the
lowest-effectiveness ones (missing scores counting as 0). -/
theorem memory_append_spec (max_memory_size : Nat) (h10 : 10 ≤ max_memory_size)
    (es mem : List ConversationEntry) (hreach : MemReach max_memory_size es mem)
    (mem2 : List ConversationEntry) (e : ConversationEntry)
    (hfull : mem2.length = max_memory_size) :
    (mem.length ≤ max_memory_size ∧ lastN (min 10 es.length) es <:+ mem)
    ∧ (∃ kept dropped,
        add_conversation max_memory_size mem2 e = kept ++ lastN 10 (mem2 ++ [e])
        ∧ (add_conversation max_memory_size mem2 e).length = max_memory_size
        ∧ kept.Subperm ((mem2 ++ [e]).take ((mem2 ++ [e]).length - 10))
        ∧ dropped ++ kept
            = List.insertionSort effLE ((mem2 ++ [e]).take ((mem2 ++ [e]).length - 10))
        ∧ ∀ x ∈ dropped, ∀ y ∈ kept, effKey x ≤ effKey y) :=
  ⟨memReach_invariant max_memory_size h10 es mem hreach,
   add_conversation_evict max_memory_size mem2 e h10 hfull⟩

/-- **C2, witness**: limit 10, the empty reachable memory, and an overflowing
append onto a full ten-entry memory. -/
theorem memory_append_spec_witness :
    (([] : List ConversationEntry).length ≤ 10
      ∧ lastN (min 10 ([] : List ConversationEntry).length) [] <:+ ([] : List ConversationEntry))
    ∧ (∃ kept dropped,
        add_conversation 10 (List.replicate 10 (⟨"user", "m", none⟩ : ConversationEntry))
            (⟨"user", "x", none⟩ : ConversationEntry)
          = kept ++ lastN 10 (List.replicate 10 (⟨"user", "m", none⟩ : ConversationEntry)
              ++ [(⟨"user", "x", none⟩ : ConversationEntry)])
        ∧ (add_conversation 10 (List.replicate 10 (⟨"user", "m", none⟩ : ConversationEntry))
            (⟨"user", "x", none⟩ : ConversationEntry)).length = 10
        ∧ kept.Subperm ((List.replicate 10 (⟨"user", "m", none⟩ : ConversationEntry)
              ++ [(⟨"user", "x", none⟩ : ConversationEntry)]).take
            ((List.replicate 10 (⟨"user", "m", none⟩ : ConversationEntry)
              ++ [(⟨"user", "x", none⟩ : ConversationEntry)]).length - 10))
        ∧ dropped ++ kept
            = List.insertionSort effLE
              ((List.replicate 10 (⟨"user", "m", none⟩ : ConversationEntry)
                  ++ [(⟨"user", "x", none⟩ : ConversationEntry)]).take
                ((List.replicate 10 (⟨"user", "m", none⟩ : ConversationEntry)
                  ++ [(⟨"user", "x", none⟩ : ConversationEntry)]).length - 10))
        ∧ ∀ x ∈ dropped, ∀ y ∈ kept, effKey x ≤ effKey y) :=
  memory_append_spec 10 (by decide) [] [] MemReach.nil
    (List.replicate 10 (⟨"user", "m", none⟩ : ConversationEntry))
    (⟨"user", "x", none⟩ : ConversationEntry) (by decide)

end FlatshareChaos
